import Mathlib

/-!
Verification of the provisioning engine in `setup.py`.

The Python source is shallowly embedded: pure functions become Lean
functions; the interactive pieces (`input()`-driven prompts) are modelled
by threading an explicit list of pending user input lines; subprocess exit
codes are supplied by an oracle `codeOf : String → Int`; the process-wide
`PRE_INSTALL_RUNNED` flag is threaded as explicit state; the filesystem
touched by `fs_del` / `tmp_dir` is a list of path entries.

Python string primitives used by the source (`str.strip`, `str.startswith`,
`str.split`, `str.lower`, substring membership `in`) are modelled by
executable list-of-characters functions so that every definition evaluates
inside the kernel.
-/

/-- Python's default whitespace set for `str.strip`:
space, tab, newline, carriage return, vertical tab, form feed. -/
def pySpace (c : Char) : Bool :=
  c == ' ' || c == '\t' || c == '\n' || c == '\r' ||
  c == Char.ofNat 11 || c == Char.ofNat 12

/-- Model of Python `s.strip()` (default whitespace). -/
def pyStrip (s : String) : String :=
  String.mk (((s.data.dropWhile pySpace).reverse.dropWhile pySpace).reverse)

/-- Model of Python `s.startswith(pre)`. -/
def pyStartsWith (pre s : String) : Bool :=
  pre.data.isPrefixOf s.data

/-- Model of Python `needle in haystack` (substring membership). -/
def pyContains (haystack needle : String) : Bool :=
  haystack.data.tails.any (fun t => needle.data.isPrefixOf t)

/-- Split a character list on a single separator character;
model of Python `s.split(sep)` for a one-character `sep`
(`setup.py` only ever splits on `"-"` and `" "`). -/
def splitChar (sep : Char) : List Char → List (List Char)
  | [] => [[]]
  | c :: cs =>
    if c = sep then
      [] :: splitChar sep cs
    else
      match splitChar sep cs with
      | [] => [[c]]
      | g :: gs => (c :: g) :: gs

/-- Model of Python `s.split(sep)` for a one-character separator. -/
def pySplit (sep : Char) (s : String) : List String :=
  (splitChar sep s.data).map String.mk

/-- Model of Python `str.lower` restricted to ASCII
(the distro keys the program compares against are ASCII). -/
def pyLowerChar (c : Char) : Char :=
  if 'A' ≤ c ∧ c ≤ 'Z' then Char.ofNat (c.toNat + 32) else c

/-- Model of Python `s.lower()`. -/
def pyLower (s : String) : String :=
  String.mk (s.data.map pyLowerChar)

/-! ## Command sequences (`run_cmd` / `run_cmds`, setup.py lines 141-169)

A Python call site may pass `None`, a single `str`, or a tuple of strings;
`CmdSpec` mirrors that dynamic shape. Subprocess exit codes come from the
oracle `codeOf`; `run_cmds` additionally returns the list of commands it
actually handed to `run_cmd`, in order. -/

/-- The dynamic shape of the `cmds` argument of `run_cmds`/`ask_execute`:
either a single string or an ordered tuple of strings. -/
inductive CmdSpec where
  | one : String → CmdSpec
  | many : List String → CmdSpec
deriving DecidableEq

/-- `cmd.strip().startswith("#")` — the comment test of `run_cmds`. -/
def isComment (cmd : String) : Bool :=
  pyStartsWith "#" (pyStrip cmd)

/-- The `for cmd in cmds` loop body of `run_cmds`: skip comment entries,
run the rest in order, return the first non-zero exit code (and stop), else 0.
Also returns the list of commands actually executed. -/
def runCmdsList (codeOf : String → Int) : List String → Int × List String
  | [] => (0, [])
  | cmd :: rest =>
    if isComment cmd then runCmdsList codeOf rest
    else
      let code := codeOf cmd
      if code ≠ 0 then (code, [cmd])
      else
        let r := runCmdsList codeOf rest
        (r.1, cmd :: r.2)

/-- `run_cmds(cmds)` (setup.py lines 158-169): `None` is a success,
a bare string is wrapped into a one-element tuple, then the loop runs. -/
def run_cmds (codeOf : String → Int) : Option CmdSpec → Int × List String
  | none => (0, [])
  | some (CmdSpec.one s) => runCmdsList codeOf [s]
  | some (CmdSpec.many l) => runCmdsList codeOf l

lemma runCmdsList_all_zero (codeOf : String → Int) (l : List String)
    (h : ∀ d ∈ l.filter (fun x => !isComment x), codeOf d = 0) :
    runCmdsList codeOf l = (0, l.filter (fun x => !isComment x)) := by
  induction l with
  | nil => simp [runCmdsList]
  | cons a t ih =>
    by_cases ha : isComment a
    · simp only [runCmdsList, ha, if_true]
      rw [ih (by simpa [List.filter_cons, ha] using h)]
      simp [List.filter_cons, ha]
    · have ha0 : codeOf a = 0 := by
        apply h; simp [List.filter_cons, ha]
      simp only [runCmdsList, ha, if_false]
      rw [ih (by intro d hd; apply h; simp [List.filter_cons, ha, hd])]
      simp [List.filter_cons, ha, ha0]

lemma runCmdsList_first_fail (codeOf : String → Int) :
    ∀ (l pre : List String) (c : String) (post : List String),
      l.filter (fun x => !isComment x) = pre ++ c :: post →
      (∀ d ∈ pre, codeOf d = 0) → codeOf c ≠ 0 →
      runCmdsList codeOf l = (codeOf c, pre ++ [c]) := by
  intro l
  induction l with
  | nil => intro pre c post hf _ _; simp at hf
  | cons a t ih =>
    intro pre c post hf hpre hc
    by_cases ha : isComment a
    · simp only [List.filter_cons, ha] at hf
      simp only [runCmdsList, ha, if_true]
      exact ih pre c post (by simpa using hf) hpre hc
    · simp only [List.filter_cons, ha] at hf
      simp only [Bool.not_false, if_true] at hf
      cases pre with
      | nil =>
        simp only [List.nil_append] at hf ⊢
        have hac : a = c := (List.cons.injEq _ _ _ _).mp hf |>.1
        subst hac
        simp [runCmdsList, ha, hc]
      | cons p pre' =>
        have hap : a = p := (List.cons.injEq _ _ _ _).mp hf |>.1
        have ht : t.filter (fun x => !isComment x) = pre' ++ c :: post :=
          (List.cons.injEq _ _ _ _).mp hf |>.2
        have ha0 : codeOf a = 0 := hap ▸ hpre p (by simp)
        simp only [runCmdsList, ha, if_false, ha0]
        rw [ih pre' c post ht (fun d hd => hpre d (by simp [hd])) hc]
        simp [hap]

lemma runCmdsList_executed_sublist (codeOf : String → Int) (l : List String) :
    ((runCmdsList codeOf l).2).Sublist (l.filter fun x => !isComment x) := by
  induction l with
  | nil => simp [runCmdsList]
  | cons a t ih =>
    by_cases ha : isComment a
    · simp only [runCmdsList, ha, if_true, List.filter_cons, Bool.not_true]
      simpa using ih
    · by_cases hz : codeOf a = 0
      · simpa [runCmdsList, ha, hz, List.filter_cons] using List.Sublist.cons₂ a ih
      · simp [runCmdsList, ha, hz, List.filter_cons]

lemma runCmdsList_no_comment_executed (codeOf : String → Int) (l : List String) :
    ∀ c ∈ (runCmdsList codeOf l).2, isComment c = false := by
  intro c hc
  have hmem := (runCmdsList_executed_sublist codeOf l).subset hc
  have hfil := List.mem_filter.mp hmem
  simpa using hfil.2

lemma runCmdsList_comment_skip (codeOf : String → Int) (c : String)
    (hc : isComment c = true) :
    ∀ pre post : List String,
      runCmdsList codeOf (pre ++ c :: post) = runCmdsList codeOf (pre ++ post) := by
  intro pre
  induction pre with
  | nil => intro post; simp [runCmdsList, hc]
  | cons a pre' ih =>
    intro post
    by_cases ha : isComment a
    · simp [runCmdsList, ha, ih]
    · by_cases hz : codeOf a = 0
      · simp [runCmdsList, ha, hz, ih]
      · simp [runCmdsList, ha, hz]

/-- C4: `run_cmds` returns the exit code of the first executed (non-comment)
command whose code is non-zero and executes nothing after it; a null or
empty sequence, or one in which every executed command returns 0, yields 0. -/
theorem run_cmds_short_circuit (codeOf : String → Int) (cmds pre post : List String)
    (c : String) :
    (run_cmds codeOf none = (0, [])) ∧
    ((∀ d ∈ cmds.filter (fun x => !isComment x), codeOf d = 0) →
      run_cmds codeOf (some (CmdSpec.many cmds)) =
        (0, cmds.filter (fun x => !isComment x))) ∧
    (cmds.filter (fun x => !isComment x) = pre ++ c :: post →
      (∀ d ∈ pre, codeOf d = 0) → codeOf c ≠ 0 →
      run_cmds codeOf (some (CmdSpec.many cmds)) = (codeOf c, pre ++ [c])) := by
  refine ⟨rfl, ?_, ?_⟩
  · intro h
    simpa [run_cmds] using runCmdsList_all_zero codeOf cmds h
  · intro hf hpre hc
    simpa [run_cmds] using runCmdsList_first_fail codeOf cmds pre c post hf hpre hc

/-- Witness for `run_cmds_short_circuit`: the spec scenario `[ok, fail, ok]` —
the failing command's code is returned and the third command is not executed. -/
theorem run_cmds_short_circuit_witness :
    run_cmds (fun s => if s = "fail" then 7 else 0)
        (some (CmdSpec.many ["ok1", "fail", "ok2"])) = (7, ["ok1", "fail"]) := by
  have h := run_cmds_short_circuit (fun s => if s = "fail" then 7 else 0)
    ["ok1", "fail", "ok2"] ["ok1"] ["ok2"] "fail"
  have := h.2.2 (by decide) (by decide) (by decide)
  simpa using this

/-- C8: an entry whose stripped text starts with `#` is never executed by
`run_cmds` and does not affect the returned exit code. -/
theorem run_cmds_comments_skipped (codeOf : String → Int) (l pre post : List String)
    (c : String) :
    (∀ d ∈ (run_cmds codeOf (some (CmdSpec.many l))).2, isComment d = false) ∧
    (isComment c = true →
      run_cmds codeOf (some (CmdSpec.many (pre ++ c :: post))) =
        run_cmds codeOf (some (CmdSpec.many (pre ++ post)))) := by
  constructor
  · simpa [run_cmds] using runCmdsList_no_comment_executed codeOf l
  · intro hc
    simpa [run_cmds] using runCmdsList_comment_skip codeOf c hc pre post

/-- Witness for `run_cmds_comments_skipped`: a comment entry between two
commands is not executed and leaves the exit code unchanged. -/
theorem run_cmds_comments_skipped_witness :
    run_cmds (fun s => if s = "fail" then 7 else 0)
        (some (CmdSpec.many ["ok1", "  # note", "fail"])) =
      run_cmds (fun s => if s = "fail" then 7 else 0)
        (some (CmdSpec.many ["ok1", "fail"])) := by
  exact (run_cmds_comments_skipped (fun s => if s = "fail" then 7 else 0)
    [] ["ok1"] ["fail"] "  # note").2 (by decide)

/-! ## Confirmation gate (`ask`, setup.py lines 95-102)

`input()` is modelled by consuming a list of pending user input lines.
`ask` loops until the exact token `"Yes"` or `"No"` is read; every other
line only prints one corrective message and prompts again. The result
records the (optional) boolean answer, the unconsumed input lines, the
number of `input()` prompts issued and the number of corrective messages
printed. `ret = none` models the loop never receiving a canonical token
(the input stream is exhausted and `input()` raises `EOFError`). -/

/-- The canonical acceptance token (setup.py line 82). -/
def YES : String := "Yes"

/-- The canonical refusal token (setup.py line 83). -/
def NO : String := "No"

/-- Result of an `ask` run. -/
structure AskRes where
  ret : Option Bool
  rest : List String
  prompts : Nat
  corrections : Nat
deriving DecidableEq

/-- `ask(prompt)` (setup.py lines 95-102) run against a stream of inputs. -/
def ask : List String → AskRes
  | [] => ⟨none, [], 1, 0⟩
  | inp :: rest =>
    if inp = YES then ⟨some true, rest, 1, 0⟩
    else if inp = NO then ⟨some false, rest, 1, 0⟩
    else
      let r := ask rest
      ⟨r.ret, r.rest, r.prompts + 1, r.corrections + 1⟩

lemma ask_ret_mem (inputs : List String) (b : Bool) :
    (ask inputs).ret = some b → (if b then YES else NO) ∈ inputs := by
  induction inputs with
  | nil => simp [ask]
  | cons i rest ih =>
    intro h
    by_cases hy : i = YES
    · simp only [ask, hy, if_true, if_pos rfl] at h
      cases h
      simp [hy]
    · by_cases hn : i = NO
      · simp only [ask, hy, hn, if_false, if_true, if_neg, if_pos rfl] at h
        cases h
        simp [hn]
      · simp only [ask, hy, hn, if_false] at h
        exact List.mem_cons_of_mem i (ih h)

/-- C6: `ask` returns `true` only for the exact token `"Yes"` and `false`
only for the exact token `"No"`; any other input line is rejected, printing
exactly one corrective message and prompting again, with no other effect. -/
theorem ask_strict_tokens (s : String) (rest inputs : List String) (b : Bool) :
    (ask (YES :: rest) = ⟨some true, rest, 1, 0⟩) ∧
    (ask (NO :: rest) = ⟨some false, rest, 1, 0⟩) ∧
    (s ≠ YES → s ≠ NO →
      ask (s :: rest) =
        ⟨(ask rest).ret, (ask rest).rest,
         (ask rest).prompts + 1, (ask rest).corrections + 1⟩) ∧
    ((ask inputs).ret = some b → (if b then YES else NO) ∈ inputs) := by
  refine ⟨by simp [ask], by simp [ask, NO, YES], ?_, ask_ret_mem inputs b⟩
  intro hy hn
  simp [ask, hy, hn]

/-- Witness for `ask_strict_tokens`: `"y"`, `"yes"` and `""` are all
rejected (each costing one corrective message) until the exact `"Yes"`. -/
theorem ask_strict_tokens_witness :
    ask ["y", "yes", "", "Yes"] = ⟨some true, [], 4, 3⟩ := by
  have h1 := (ask_strict_tokens "y" ["yes", "", "Yes"] [] true).2.2.1
    (by decide) (by decide)
  have h2 := (ask_strict_tokens "yes" ["", "Yes"] [] true).2.2.1
    (by decide) (by decide)
  have h3 := (ask_strict_tokens "" ["Yes"] [] true).2.2.1
    (by decide) (by decide)
  have h4 := (ask_strict_tokens "" [] ["Yes"] true).1
  rw [h1, h2, h3]
  rw [show ask ["Yes"] = ⟨some true, [], 1, 0⟩ from h4]

/-! ## Package registry and install planner
(`PKGS`, `chek_can_install`, setup.py lines 31-74 and 208-215) -/

/-- The availability-check field of a package record: either a bare command
(expected exit code defaults to 0) or a `(command, expectedCode)` pair. -/
inductive Check where
  | cmd : String → Check
  | cmdCode : String → Int → Check
deriving DecidableEq

/-- Normalize a `Check` to `(command, requiredCode)` exactly as the probe
loop of `check_deps` does (setup.py lines 246-251). -/
def checkOf : Check → String × Int
  | Check.cmd s => (s, 0)
  | Check.cmdCode s r => (s, r)

/-- A package descriptor: the four fields of a `PKGS` record. -/
structure Pkg where
  name : String
  comment : String
  check : Check
  install : List (String × CmdSpec)
deriving DecidableEq

/-- Python `distro in dep[PKGS_ISNTALL]`: key membership in the
install-recipe mapping. -/
def hasRecipe (distro : String) (dep : Pkg) : Bool :=
  dep.install.any (fun kv => kv.1 = distro)

/-- `chek_can_install(deps, distro)` (setup.py lines 208-215): the loop
appends each dep to `available` when `distro` is a key of its install map,
otherwise to `not_available`. -/
def chek_can_install (deps : List Pkg) (distro : String) : List Pkg × List Pkg :=
  deps.foldl
    (fun acc dep =>
      if hasRecipe distro dep then (acc.1 ++ [dep], acc.2)
      else (acc.1, acc.2 ++ [dep]))
    ([], [])

lemma chek_can_install_foldl (deps : List Pkg) (distro : String) :
    ∀ acc : List Pkg × List Pkg,
      deps.foldl
        (fun acc dep =>
          if hasRecipe distro dep then (acc.1 ++ [dep], acc.2)
          else (acc.1, acc.2 ++ [dep])) acc =
      (acc.1 ++ deps.filter (hasRecipe distro),
       acc.2 ++ deps.filter (fun d => !hasRecipe distro d)) := by
  induction deps with
  | nil => intro acc; simp
  | cons d t ih =>
    intro acc
    by_cases hd : hasRecipe distro d
    · simp [List.foldl_cons, hd, ih, List.filter_cons]
    · simp [List.foldl_cons, hd, ih, List.filter_cons]

lemma chek_can_install_eq_filter (deps : List Pkg) (distro : String) :
    chek_can_install deps distro =
      (deps.filter (hasRecipe distro),
       deps.filter (fun d => !hasRecipe distro d)) := by
  simpa [chek_can_install] using chek_can_install_foldl deps distro ([], [])

/-- C5: `chek_can_install` is a disjoint, order-preserving cover of its
input: a candidate lands in the auto list iff the distro is a key of its
install-recipe map, both output lists preserve registry order (sublists of
the input), their concatenation is a permutation of the input, and no
candidate appears in both. -/
theorem chek_can_install_partition (deps : List Pkg) (distro : String) :
    (chek_can_install deps distro).1 = deps.filter (hasRecipe distro) ∧
    (chek_can_install deps distro).2 =
      deps.filter (fun d => !hasRecipe distro d) ∧
    (∀ d, d ∈ (chek_can_install deps distro).1 ↔
      d ∈ deps ∧ hasRecipe distro d = true) ∧
    (∀ d, d ∈ (chek_can_install deps distro).2 ↔
      d ∈ deps ∧ hasRecipe distro d = false) ∧
    (∀ d, ¬(d ∈ (chek_can_install deps distro).1 ∧
            d ∈ (chek_can_install deps distro).2)) ∧
    ((chek_can_install deps distro).1 ++ (chek_can_install deps distro).2).Perm
      deps ∧
    ((chek_can_install deps distro).1).Sublist deps ∧
    ((chek_can_install deps distro).2).Sublist deps := by
  rw [chek_can_install_eq_filter]
  refine ⟨rfl, rfl, ?_, ?_, ?_, ?_, ?_, ?_⟩
  · intro d; simp [List.mem_filter]
  · intro d; simp [List.mem_filter]
  · intro d h
    rcases h with ⟨h1, h2⟩
    have := (List.mem_filter.mp h1).2
    have := (List.mem_filter.mp h2).2
    simp_all
  · exact List.filter_append_perm _ deps
  · exact List.filter_sublist deps
  · exact List.filter_sublist deps

/-! ## Environment detector (`get_os_info`, setup.py lines 125-138)

`platform.system()` and `platform.version()` are inputs of the model; the
three Tails filesystem/login markers (`/etc/tails`, `/etc/amnesia`,
`os.getlogin() == "amnesia"`) are collapsed into one boolean input. -/

/-- `get_os_info()` (setup.py lines 125-138). `system`/`version` are the
raw values of `platform.system()` / `platform.version()`; `tailsMarkers`
is the conjunction of the three hardened-distro filesystem/login checks. -/
def get_os_info (system version : String) (tailsMarkers : Bool) :
    String × String :=
  let system := pyLower system
  if system = "linux" then
    if pyContains version "Debian" ∧ tailsMarkers then ("linux", "tails")
    else
      let parts := pySplit '-' version
      if parts.length < 2 then (system, parts.headD "")
      else (system, pyLower (((pySplit ' ' (parts.getD 1 "")).headD "")))
  else (system, pyLower version)

/-- The distribution key exactly as claim C2 words it: split the version on
a hyphen and take the token before the first space; with no hyphen segment,
the first whitespace-delimited token of the raw string; always lower-cased. -/
def claimedDistroKey (version : String) : String :=
  let parts := pySplit '-' version
  if parts.length < 2 then pyLower ((pySplit ' ' version).headD "")
  else pyLower (((pySplit ' ' (parts.getD 1 "")).headD ""))

/-- Counterexample to C2: on a hyphen-free version string such as
`"FOO BAR"`, `get_os_info` returns the entire raw string `"FOO BAR"` —
neither truncated at the first space nor lower-cased — while the claim
predicts `"foo"`. -/
theorem get_os_info_claim_counterexample :
    (get_os_info "Linux" "FOO BAR" false).2 = "FOO BAR" ∧
    claimedDistroKey "FOO BAR" = "foo" ∧
    (get_os_info "Linux" "FOO BAR" false).2 ≠ claimedDistroKey "FOO BAR" := by
  refine ⟨by decide, by decide, by decide⟩

/-- C2 amended: for a Linux host not classified as Tails, when the version
string contains a hyphen the returned key is the lower-cased token of the
second hyphen-segment before its first space; when it contains no hyphen
the entire raw version string is returned unchanged (neither split at
whitespace nor lower-cased). -/
theorem get_os_info_linux_distro (system version : String) (tm : Bool)
    (hsys : pyLower system = "linux")
    (hnt : ¬(pyContains version "Debian" ∧ tm = true)) :
    get_os_info system version tm =
      if (pySplit '-' version).length < 2 then ("linux", version)
      else
        ("linux",
         pyLower (((pySplit ' ' ((pySplit '-' version).getD 1 "")).headD ""))) := by
  have hne : ∀ cs : List Char, splitChar '-' cs ≠ [] := by
    intro cs
    induction cs with
    | nil => simp [splitChar]
    | cons c cs ih =>
      by_cases hc : c = '-'
      · simp [splitChar, hc]
      · simp only [splitChar, hc, if_false]
        cases hg : splitChar '-' cs with
        | nil => simp
        | cons g gs => simp
  have hjoin : ∀ cs : List Char, (splitChar '-' cs).length < 2 →
      splitChar '-' cs = [cs] := by
    intro cs
    induction cs with
    | nil => intro _; simp [splitChar]
    | cons c cs ih =>
      intro hl
      by_cases hc : c = '-'
      · simp only [hc, splitChar, if_pos, List.length_cons] at hl
        cases hg : splitChar '-' cs with
        | nil => exact absurd hg (hne cs)
        | cons g gs =>
          rw [hg] at hl
          exfalso
          simp only [List.length_cons] at hl
          omega
      · simp only [splitChar, hc, if_false] at hl ⊢
        cases hg : splitChar '-' cs with
        | nil => exact absurd hg (hne cs)
        | cons g gs =>
          rw [hg] at hl
          simp only [List.length_cons] at hl
          have hgl : (splitChar '-' cs).length < 2 := by
            rw [hg]; simp; omega
          have := ih hgl
          rw [hg] at this
          cases this
          simp
  have hone : (pySplit '-' version).length < 2 → pySplit '-' version = [version] := by
    intro hlen
    have hl' : (splitChar '-' version.data).length < 2 := by
      simpa [pySplit] using hlen
    have := hjoin version.data hl'
    simp [pySplit, this]
  have hd : ¬(pyContains version "Debian" = true ∧ tm = true) := by
    simpa using hnt
  by_cases hlen : (pySplit '-' version).length < 2
  · simp [get_os_info, hsys, hd, hlen, hone hlen]
  · simp [get_os_info, hsys, hd, hlen]

/-- Witness for `get_os_info_linux_distro`: a Debian-style version string
with a hyphen yields the lower-cased codename token, and a hyphen-free one
is passed through whole. -/
theorem get_os_info_linux_distro_witness :
    (pyLower "Linux" = "linux" ∧
      ¬(pyContains "#1 SMP Debian 5.10.1-Whonix (2021)" "Debian" ∧ False) ∧
      get_os_info "Linux" "#1 SMP Debian 5.10.1-Whonix (2021)" false =
        ("linux", "whonix")) ∧
    (get_os_info "Linux" "FOO BAR" false = ("linux", "FOO BAR")) := by
  constructor
  · refine ⟨by decide, by decide, ?_⟩
    have h := get_os_info_linux_distro "Linux" "#1 SMP Debian 5.10.1-Whonix (2021)"
      false (by decide) (by decide)
    rw [h]
    decide
  · have h := get_os_info_linux_distro "Linux" "FOO BAR" false (by decide) (by decide)
    rw [h]
    decide

/-! ## Pre-install step (`PRE_INSTALL`, `run_pre_install`,
setup.py lines 76-80 and 217-226)

The process-wide singleton `PRE_INSTALL_RUNNED` is threaded explicitly as
the `preInstallRunned` field of `PState`, together with the pending user
input lines consumed by `input()`. -/

/-- Process-level mutable state: pending `input()` lines and the
`PRE_INSTALL_RUNNED` singleton flag. -/
structure PState where
  inputs : List String
  preInstallRunned : Bool
deriving DecidableEq

/-- Result of an effectful step: the returned value (`none` models an
abnormal exit: `EOFError` on exhausted input or an uncaught `KeyError`),
the state afterwards, the number of `input()` prompts issued, and the
commands actually executed, in order. -/
structure RunRes where
  ret : Option Bool
  st : PState
  prompts : Nat
  executed : List String
deriving DecidableEq

/-- The `PRE_INSTALL` table (setup.py lines 76-78). -/
def PRE_INSTALL : List (String × String) := [("tails", "sudo apt -q update -y ")]

/-- `ask_execute(cmds)` (setup.py lines 104-119): `None` auto-approves
without prompting; otherwise the command preview is printed (display only,
not modelled) and the strict yes/no gate runs. -/
def ask_execute (cmds : Option CmdSpec) (inputs : List String) :
    Option Bool × List String × Nat :=
  match cmds with
  | none => (some true, inputs, 0)
  | some _ =>
    let a := ask inputs
    (a.ret, a.rest, a.prompts)

/-- `run_pre_install(distro)` (setup.py lines 217-226): an already-set flag
short-circuits to `True`; otherwise the flag is set, then a distro without
a `PRE_INSTALL` entry trivially succeeds, else the gate is consulted and on
approval the command is run. -/
def run_pre_install (codeOf : String → Int) (distro : String) (st : PState) :
    RunRes :=
  if st.preInstallRunned then ⟨some true, st, 0, []⟩
  else
    match PRE_INSTALL.lookup distro with
    | none => ⟨some true, ⟨st.inputs, true⟩, 0, []⟩
    | some cmd =>
      match ask_execute (some (CmdSpec.one cmd)) st.inputs with
      | (none, rest, n) => ⟨none, ⟨rest, true⟩, n, []⟩
      | (some false, rest, n) => ⟨some false, ⟨rest, true⟩, n, []⟩
      | (some true, rest, n) =>
        let r := run_cmds codeOf (some (CmdSpec.one cmd))
        ⟨some (decide (r.1 = 0)), ⟨rest, true⟩, n, r.2⟩

/-- N successive `run_pre_install` calls within one process (one per
provisioning-loop iteration), each with its own pending-input stream;
returns the final flag and the concatenation of all executed commands. -/
def iterPreInstall (codeOf : String → Int) (distro : String) (flag : Bool) :
    List (List String) → Bool × List String
  | [] => (flag, [])
  | ins :: rest =>
    let r := run_pre_install codeOf distro ⟨ins, flag⟩
    let w := iterPreInstall codeOf distro r.st.preInstallRunned rest
    (w.1, r.executed ++ w.2)

lemma run_pre_install_sets_flag (codeOf : String → Int) (distro : String)
    (st : PState) :
    (run_pre_install codeOf distro st).st.preInstallRunned = true := by
  unfold run_pre_install
  by_cases hf : st.preInstallRunned = true
  · rw [if_pos hf]; exact hf
  · rw [if_neg hf]
    cases PRE_INSTALL.lookup distro with
    | none => rfl
    | some cmd =>
      rcases h : ask_execute (some (CmdSpec.one cmd)) st.inputs with ⟨ret, rest, n⟩
      rcases ret with _ | b
      · simp [h]
      · cases b
        · simp [h]
        · simp [h]

lemma run_pre_install_after (codeOf : String → Int) (distro : String)
    (st : PState) (hf : st.preInstallRunned = true) :
    run_pre_install codeOf distro st = ⟨some true, st, 0, []⟩ := by
  unfold run_pre_install
  rw [if_pos hf]

lemma iterPreInstall_flag_true (codeOf : String → Int) (distro : String) :
    ∀ inss : List (List String),
      iterPreInstall codeOf distro true inss = (true, []) := by
  intro inss
  induction inss with
  | nil => rfl
  | cons i rest ih =>
    simp [iterPreInstall, run_pre_install_after codeOf distro ⟨i, true⟩ rfl, ih]

/-- C3: across N ≥ 2 provisioning-loop iterations in one process, the
pre-install commands are executed at most once — the cumulative execution
trace of all N `run_pre_install` calls is exactly that of the first call —
and a distribution without a `PRE_INSTALL` entry succeeds immediately with
no prompt and no execution. -/
theorem run_pre_install_at_most_once (codeOf : String → Int) (distro : String)
    (inss : List (List String)) (hN : 2 ≤ inss.length) (ins0 : List String) :
    ((iterPreInstall codeOf distro false inss).2 =
      (run_pre_install codeOf distro ⟨inss.headD [], false⟩).executed) ∧
    (PRE_INSTALL.lookup distro = none →
      run_pre_install codeOf distro ⟨ins0, false⟩ =
        ⟨some true, ⟨ins0, true⟩, 0, []⟩) := by
  constructor
  · cases inss with
    | nil => simp at hN
    | cons i rest =>
      simp only [iterPreInstall, List.headD_cons]
      rw [run_pre_install_sets_flag codeOf distro ⟨i, false⟩]
      rw [iterPreInstall_flag_true codeOf distro rest]
      simp
  · intro h
    simp [run_pre_install, h]

/-- Witness for `run_pre_install_at_most_once`: two iterations with the
user approving each time still execute the `tails` pre-install only once,
and a `debian` host (no registered pre-install) succeeds with no action. -/
theorem run_pre_install_at_most_once_witness :
    ((iterPreInstall (fun _ => 0) "tails" false [["Yes"], ["Yes"]]).2 =
      (run_pre_install (fun _ => 0) "tails" ⟨["Yes"], false⟩).executed) ∧
    run_pre_install (fun _ => 0) "debian" ⟨[], false⟩ =
      ⟨some true, ⟨[], true⟩, 0, []⟩ := by
  refine ⟨(run_pre_install_at_most_once (fun _ => 0) "tails"
    [["Yes"], ["Yes"]] (by decide) []).1, ?_⟩
  exact (run_pre_install_at_most_once (fun _ => 0) "debian"
    [[], []] (by decide) []).2 (by decide)

/-- C9: `run_pre_install` sets the process-wide flag before consulting the
gate or executing anything, so after any first call — approved, declined,
failed or aborted — every later call in the same process returns `True`
immediately, consuming no input and executing nothing. -/
theorem run_pre_install_flag_first (codeOf : String → Int) (distro : String)
    (st : PState) :
    ((run_pre_install codeOf distro st).st.preInstallRunned = true) ∧
    (st.preInstallRunned = true →
      run_pre_install codeOf distro st = ⟨some true, st, 0, []⟩) :=
  ⟨run_pre_install_sets_flag codeOf distro st,
   run_pre_install_after codeOf distro st⟩

/-- Witness for `run_pre_install_flag_first`: a first call where the user
declined still left the flag set, and a call with the flag already set
returns `True` untouched. -/
theorem run_pre_install_flag_first_witness :
    (run_pre_install (fun _ => 0) "tails" ⟨["No"], false⟩).st.preInstallRunned
        = true ∧
    run_pre_install (fun _ => 0) "tails" ⟨[], true⟩ =
      ⟨some true, ⟨[], true⟩, 0, []⟩ :=
  ⟨(run_pre_install_flag_first (fun _ => 0) "tails" ⟨["No"], false⟩).1,
   (run_pre_install_flag_first (fun _ => 0) "tails" ⟨[], true⟩).2 rfl⟩

/-! ## Batch install and the provisioning loop
(`install_deps`, `check_deps`, setup.py lines 228-286) -/

/-- The command-gathering loop of `install_deps` (setup.py lines 229-235):
each dep's recipe for `distro` is appended (a bare string as one entry, a
tuple spliced in order); a missing key raises `KeyError`, modelled as
`none`. -/
def gatherCommands (distro : String) : List Pkg → Option (List String)
  | [] => some []
  | dep :: rest =>
    match dep.install.lookup distro with
    | none => none
    | some (CmdSpec.one s) =>
      match gatherCommands distro rest with
      | none => none
      | some cs => some (s :: cs)
    | some (CmdSpec.many l) =>
      match gatherCommands distro rest with
      | none => none
      | some cs => some (l ++ cs)

/-- `install_deps(distro, deps)` (setup.py lines 228-238): gather the
flattened command list, gate it, then run it; the result is whether the
batch returned exit code 0. -/
def install_deps (codeOf : String → Int) (distro : String) (deps : List Pkg)
    (st : PState) : RunRes :=
  match gatherCommands distro deps with
  | none => ⟨none, st, 0, []⟩
  | some commands =>
    match ask_execute (some (CmdSpec.many commands)) st.inputs with
    | (none, rest, n) => ⟨none, ⟨rest, st.preInstallRunned⟩, n, []⟩
    | (some false, rest, n) => ⟨some false, ⟨rest, st.preInstallRunned⟩, n, []⟩
    | (some true, rest, n) =>
      let r := run_cmds codeOf (some (CmdSpec.many commands))
      ⟨some (decide (r.1 = 0)), ⟨rest, st.preInstallRunned⟩, n, r.2⟩

/-- The probe pass of `check_deps` (setup.py lines 244-254): a package is
queued for installation iff its availability command's exit code differs
from the required code (default 0). Re-evaluated fresh each iteration. -/
def toInstallList (codeOf : String → Int) (pkgs : List Pkg) : List Pkg :=
  pkgs.filter (fun pkg =>
    decide (codeOf (checkOf pkg.check).1 ≠ (checkOf pkg.check).2))

/-- The `while True` loop of `check_deps` (setup.py lines 240-286), with an
explicit fuel bound on the number of iterations (`ret = none` when the fuel
runs out or `input()` hits end of stream). The `recheck` flag only
suppresses the one-time banner print, which is display-only here.
Per iteration: probe all packages; empty queue returns `True`; a non-empty
manual bucket prompts an acknowledgement and loops; otherwise consent is
asked — declined prompts an acknowledgement and loops; consented runs the
one-time pre-install then the batch install, a failure of either returns
`False`, success loops to re-probe. -/
def checkDepsLoop (codeOf : String → Int) (distro : String) (pkgs : List Pkg) :
    Nat → Bool → PState → RunRes
  | 0, _, st => ⟨none, st, 0, []⟩
  | fuel + 1, _recheck, st =>
    let to_install := toInstallList codeOf pkgs
    if to_install.length = 0 then ⟨some true, st, 0, []⟩
    else
      let pair := chek_can_install to_install distro
      if pair.2.length ≠ 0 then
        match st.inputs with
        | [] => ⟨none, ⟨[], st.preInstallRunned⟩, 1, []⟩
        | _ :: rest =>
          let r := checkDepsLoop codeOf distro pkgs fuel true
            ⟨rest, st.preInstallRunned⟩
          ⟨r.ret, r.st, r.prompts + 1, r.executed⟩
      else
        let a := ask st.inputs
        match a.ret with
        | none => ⟨none, ⟨a.rest, st.preInstallRunned⟩, a.prompts, []⟩
        | some false =>
          match a.rest with
          | [] => ⟨none, ⟨[], st.preInstallRunned⟩, a.prompts + 1, []⟩
          | _ :: rest2 =>
            let r := checkDepsLoop codeOf distro pkgs fuel false
              ⟨rest2, st.preInstallRunned⟩
            ⟨r.ret, r.st, a.prompts + 1 + r.prompts, r.executed⟩
        | some true =>
          let rp := run_pre_install codeOf distro ⟨a.rest, st.preInstallRunned⟩
          match rp.ret with
          | none => ⟨none, rp.st, a.prompts + rp.prompts, rp.executed⟩
          | some false =>
            ⟨some false, rp.st, a.prompts + rp.prompts, rp.executed⟩
          | some true =>
            let di := install_deps codeOf distro pair.1 rp.st
            match di.ret with
            | none =>
              ⟨none, di.st, a.prompts + rp.prompts + di.prompts,
               rp.executed ++ di.executed⟩
            | some false =>
              ⟨some false, di.st, a.prompts + rp.prompts + di.prompts,
               rp.executed ++ di.executed⟩
            | some true =>
              let r := checkDepsLoop codeOf distro pkgs fuel false di.st
              ⟨r.ret, r.st, a.prompts + rp.prompts + di.prompts + r.prompts,
               rp.executed ++ di.executed ++ r.executed⟩

/-- `check_deps()` (setup.py line 240): the loop starts with
`recheck = False`. The detected distro and the registry are parameters. -/
def check_deps (codeOf : String → Int) (distro : String) (pkgs : List Pkg)
    (fuel : Nat) (st : PState) : RunRes :=
  checkDepsLoop codeOf distro pkgs fuel false st

/-- C7: when every package's availability probe returns exactly its
expected exit code, `check_deps` terminates with success on its first
iteration (any fuel ≥ 1), consumes no input, issues no prompts and
executes nothing. -/
theorem check_deps_all_satisfied (codeOf : String → Int) (distro : String)
    (pkgs : List Pkg) (fuel : Nat) (st : PState)
    (h : ∀ pkg ∈ pkgs, codeOf (checkOf pkg.check).1 = (checkOf pkg.check).2) :
    check_deps codeOf distro pkgs (fuel + 1) st = ⟨some true, st, 0, []⟩ := by
  have hti : toInstallList codeOf pkgs = [] := by
    apply List.filter_eq_nil_iff.mpr
    intro pkg hpkg
    simp [h pkg hpkg]
  unfold check_deps checkDepsLoop
  simp [hti]

/-- Witness for `check_deps_all_satisfied`: the registry's first two
packages with probe results matching their expected codes (`gpg --version`
exits 0, `argon2 -h` exits 1) — the loop succeeds at once with no prompt. -/
theorem check_deps_all_satisfied_witness :
    check_deps (fun c => if c = "argon2 -h" then 1 else 0) "tails"
      [⟨"gnupg", "GNU Privacy Guard", Check.cmd "gpg --version", []⟩,
       ⟨"argon2", "memory & CPU hard hash function",
        Check.cmdCode "argon2 -h" 1,
        [("tails", CmdSpec.one "sudo apt -qq install -y argon2")]⟩]
      1 ⟨[], false⟩ = ⟨some true, ⟨[], false⟩, 0, []⟩ :=
  check_deps_all_satisfied (fun c => if c = "argon2 -h" then 1 else 0) "tails"
    [⟨"gnupg", "GNU Privacy Guard", Check.cmd "gpg --version", []⟩,
     ⟨"argon2", "memory & CPU hard hash function",
      Check.cmdCode "argon2 -h" 1,
      [("tails", CmdSpec.one "sudo apt -qq install -y argon2")]⟩]
    0 ⟨[], false⟩ (by decide)

/-! ## Filesystem model: `fs_del` (setup.py lines 174-191) and the
`tmp_dir` context manager (setup.py lines 302-306, 324-330)

The filesystem is a flat list of entries (absolute path, directory flag,
permission mode). `os.walk` enumerates the entries strictly below a
directory; GNU `shred -f -u -z` on an existing regular file unlinks it
when the tool is available (`shredWorks`), otherwise the subprocess fails
(its exit code is ignored by `fs_del` either way); `shutil.rmtree` raises
`FileNotFoundError` on a missing path and `NotADirectoryError` on a
non-directory. Recursion depth is bounded by explicit fuel; `none` means
the fuel ran out. -/

/-- One filesystem entry. -/
structure FSEnt where
  path : String
  isDir : Bool
  mode : Nat
deriving DecidableEq

/-- A filesystem: the list of existing entries. -/
abbrev FS := List FSEnt

/-- `os.path.exists(p)`. -/
def fsHas (fs : FS) (p : String) : Bool :=
  fs.any (fun e => e.path == p)

/-- `os.path.isdir(p)`. -/
def fsIsDir (fs : FS) (p : String) : Bool :=
  fs.any (fun e => e.path == p && e.isDir)

/-- `child` lies strictly below directory `parent`. -/
def isUnder (parent child : String) : Bool :=
  (parent ++ "/").data.isPrefixOf child.data

/-- Python exceptions surfaced by the deletion code. -/
inductive PyErr where
  | fileNotFound
  | notADirectory
deriving DecidableEq

/-- `run_cmd(f"shred -f -u -z {path}", False)`: GNU shred unlinks an
existing regular file when available, otherwise exits non-zero; `fs_del`
discards the exit code. -/
def shredRun (shredWorks : Bool) (fs : FS) (p : String) : FS × Int :=
  if shredWorks && fsHas fs p && !fsIsDir fs p then
    (fs.filter (fun e => !(e.path == p)), 0)
  else (fs, 1)

/-- `shutil.rmtree(p)`. -/
def rmtree (fs : FS) (p : String) : Except PyErr FS :=
  if !fsHas fs p then Except.error PyErr.fileNotFound
  else if !fsIsDir fs p then Except.error PyErr.notADirectory
  else Except.ok (fs.filter (fun e => !(e.path == p || isUnder p e.path)))

/-- The tail of `fs_del` (setup.py lines 187-191): `shutil.rmtree(path)`
with only `FileNotFoundError` suppressed. -/
def rmtreeSuppress (fs : FS) (p : String) : Except PyErr FS :=
  match rmtree fs p with
  | Except.error PyErr.fileNotFound => Except.ok fs
  | Except.error e => Except.error e
  | Except.ok fs1 => Except.ok fs1

/-- `fs_del(path)` (setup.py lines 174-191). On a directory, the `os.walk`
loop gives every subdirectory and file below `path` its own recursive
`fs_del` call (an exception from any call propagates); on anything else the
path is shredded. Either way `shutil.rmtree(path)` then runs with
`FileNotFoundError` suppressed. -/
def fs_del (shredWorks : Bool) : Nat → String → FS → Option (Except PyErr FS)
  | 0, _, _ => none
  | fuel + 1, p, fs =>
    if fsIsDir fs p then
      let subdirs := (fs.filter (fun e => isUnder p e.path && e.isDir)).map
        FSEnt.path
      let subfiles := (fs.filter (fun e => isUnder p e.path && !e.isDir)).map
        FSEnt.path
      let walked := (subdirs ++ subfiles).foldl
        (fun acc q =>
          match acc with
          | some (Except.ok fsc) => fs_del shredWorks fuel q fsc
          | r => r)
        (some (Except.ok fs))
      match walked with
      | none => none
      | some (Except.error e) => some (Except.error e)
      | some (Except.ok fs1) => some (rmtreeSuppress fs1 p)
    else
      let sh := shredRun shredWorks fs p
      some (rmtreeSuppress sh.1 p)

lemma fsIsDir_false_of_not_has (p : String) (fs : FS)
    (h : fsHas fs p = false) : fsIsDir fs p = false := by
  simp only [fsHas, List.any_eq_false] at h
  simp only [fsIsDir, List.any_eq_false]
  intro e he
  have := h e he
  simp_all

/-- C10: `fs_del` on a path that does not exist returns normally — the
`FileNotFoundError` of the final recursive delete is suppressed — and
leaves the filesystem unchanged, so deleting an already-deleted path is a
no-op and `fs_del` may be called twice on the same path. -/
theorem fs_del_missing_path_noop (sw : Bool) (fuel : Nat) (p : String)
    (fs : FS) (h : fsHas fs p = false) :
    fs_del sw (fuel + 1) p fs = some (Except.ok fs) ∧
    (∀ fs1, fs_del sw (fuel + 1) p fs = some (Except.ok fs1) →
      fs_del sw (fuel + 1) p fs1 = some (Except.ok fs1)) := by
  have hdir := fsIsDir_false_of_not_has p fs h
  have hfirst : fs_del sw (fuel + 1) p fs = some (Except.ok fs) := by
    unfold fs_del
    rw [if_neg (by simp [hdir])]
    simp [shredRun, rmtreeSuppress, rmtree, h, hdir]
  refine ⟨hfirst, ?_⟩
  intro fs1 h1
  rw [hfirst] at h1
  cases h1
  exact hfirst

/-- Witness for `fs_del_missing_path_noop`: deleting a path absent from a
small filesystem is a no-op, twice in a row. -/
theorem fs_del_missing_path_noop_witness :
    fs_del false 3 "/tmp/gone" [⟨"/home", true, 493⟩] =
      some (Except.ok [⟨"/home", true, 493⟩]) ∧
    fs_del false 3 "/tmp/gone" [⟨"/home", true, 493⟩] =
      some (Except.ok [⟨"/home", true, 493⟩]) := by
  have h := fs_del_missing_path_noop false 2 "/tmp/gone"
    [⟨"/home", true, 493⟩] (by decide)
  exact ⟨h.1, h.2 [⟨"/home", true, 493⟩] h.1⟩

/-- `os.makedirs(TMP_DIR, mode=0o700)`: creates the directory with the
given mode, raising `FileExistsError` (modelled as `Except.error ()`) if
the path already exists. -/
def makedirs (fs : FS) (p : String) (mode : Nat) : Except Unit FS :=
  if fsHas fs p then Except.error ()
  else Except.ok (fs ++ [⟨p, true, mode⟩])

/-- How the wrapped body terminates: normal return, `KeyboardInterrupt`,
or any other uncaught exception. -/
inductive Outcome where
  | ok
  | kbInterrupt
  | otherExc
deriving DecidableEq

/-- The `tmp_dir` context manager (setup.py lines 302-306):
`os.makedirs(TMP_DIR, mode=0o700)`, `yield`, `fs_del(TMP_DIR)`.
There is no try/finally around the yield, so with `@contextmanager`
semantics an exception thrown into the generator at the yield point
propagates and `fs_del` is never reached; only a normal body exit runs the
cleanup. Returns the propagated outcome and the final filesystem. -/
def with_tmp_dir (sw : Bool) (fuel : Nat) (tmpdir : String)
    (body : FS → Outcome × FS) (fs : FS) : Option (Outcome × FS) :=
  match makedirs fs tmpdir 0o700 with
  | Except.error _ => some (Outcome.otherExc, fs)
  | Except.ok fs1 =>
    match body fs1 with
    | (Outcome.ok, fs2) =>
      match fs_del sw fuel tmpdir fs2 with
      | none => none
      | some (Except.error _) => some (Outcome.otherExc, fs2)
      | some (Except.ok fs3) => some (Outcome.ok, fs3)
    | (e, fs2) => some (e, fs2)

/-- The `try/except KeyboardInterrupt` wrapped around `main()` inside the
`with tmp_dir()` block (setup.py lines 326-329): a `KeyboardInterrupt`
from the body is caught and reported, any other exception propagates. -/
def script_main_guard (mainBody : FS → Outcome × FS) (fs : FS) :
    Outcome × FS :=
  match mainBody fs with
  | (Outcome.kbInterrupt, fs1) => (Outcome.ok, fs1)
  | r => r

/-- The `__main__` block (setup.py lines 324-330): the guarded `main()`
runs inside the `tmp_dir` scope. -/
def script_top (sw : Bool) (fuel : Nat) (tmpdir : String)
    (mainBody : FS → Outcome × FS) (fs : FS) : Option (Outcome × FS) :=
  with_tmp_dir sw fuel tmpdir (script_main_guard mainBody) fs

/-- C1 evaluated on each exit path of the wrapped body, starting from an
empty filesystem: on a normal return and on a `KeyboardInterrupt` (caught
inside the `with` block) the workspace is created with mode 0o700 and is
gone afterwards; but when `main()` raises any other exception the missing
try/finally in `tmp_dir` skips `fs_del`, and the directory — created with
mode 0o700, confirming the acquisition half of the claim — still exists
when the process exits, contradicting the release half of the claim. -/
theorem tmp_dir_cleanup_paths :
    (script_top true 2 "/tmp/YUBIKEY_SETUP_token"
        (fun fs => (Outcome.ok, fs)) [] = some (Outcome.ok, [])) ∧
    (script_top true 2 "/tmp/YUBIKEY_SETUP_token"
        (fun fs => (Outcome.kbInterrupt, fs)) [] = some (Outcome.ok, [])) ∧
    (script_top true 2 "/tmp/YUBIKEY_SETUP_token"
        (fun fs => (Outcome.otherExc, fs)) [] =
      some (Outcome.otherExc, [⟨"/tmp/YUBIKEY_SETUP_token", true, 0o700⟩])) := by
  refine ⟨by decide, by decide, by decide⟩
